import Mathlib

/-!
Verification of the AcoustID metadata normalization pipeline
(`src/backend/modules/apis/acoustid.py`).

The pipeline takes a decoded lookup response, validates it, flattens the
nested recording lists, merges recordings that share a `(title, artist-id
sequence)` key, deduplicates and filters each merged recording's release
groups, and expands the result into a flat list of track-metadata records.

The embedding below models the JSON dictionaries of the source as Lean
structures with `Option` fields for the optional keys.  Python's
insertion-ordered `dict`s become association lists where an update keeps the
entry's position and an insertion appends at the end.  The in-place
`setdefault` mutation of artist records and the append-only global
submission registry are made explicit by threading them through the folds.
A lookup either returns a value or fails, which the embedding expresses
with `Option`/`Except`.
-/

namespace AcoustID

/-- An artist record: optional `id`, mandatory display `name`. -/
structure Artist where
  id : Option String
  name : String
deriving DecidableEq

/-- A release group (album) record.  `secondarytypes` marks compilations,
soundtracks, etc.; only its presence is ever inspected. -/
structure ReleaseGroup where
  id : Option String
  title : Option String
  name : Option String
  artists : Option (List Artist)
  secondarytypes : Option (List String)
deriving DecidableEq

/-- A recording as delivered inside a result entry.  `releasegroups` is
modelled as optional because the source accesses the key without checking
its presence; a missing key raises. -/
structure Recording where
  title : Option String
  artists : Option (List Artist)
  releasegroups : Option (List ReleaseGroup)
deriving DecidableEq

/-- One entry of the `results` array of a lookup response. -/
structure ResultEntry where
  recordings : Option (List Recording)
deriving DecidableEq

/-- A decoded lookup response. -/
structure LookupResponse where
  status : String
  results : Option (List ResultEntry)
deriving DecidableEq

/-- A merged recording: one bucket of the merger's grouping. -/
structure MergedRecording where
  title : String
  artists : List Artist
  releasegroups : List ReleaseGroup
deriving DecidableEq

/-- One output metadata record. -/
structure TrackMetadata where
  artist : String
  title : String
  album : Option String
  albumartist : Option String
deriving DecidableEq

/-- Failures of the parsing pipeline: `webServiceError` embeds
`acoustid.WebServiceError`, `keyError` embeds Python's `KeyError` raised by
an unchecked dictionary access. -/
inductive LookupError where
  | webServiceError (message : String)
  | keyError (key : String)
deriving DecidableEq

/-- Embedding of `_join_artist_names`: the artist display names joined with `"; "`. -/
def joinArtistNames (artists : List Artist) : String :=
  String.intercalate "; " (artists.map (fun a => a.name))

/-- The comma-joined artist-id key, a missing id contributing `""`
(the value `setdefault` returns for it). -/
def artistKey (artists : List Artist) : String :=
  String.intercalate "," (artists.map (fun a => a.id.getD ""))

/-- Effect of `artist.setdefault("id", "")` on each member of an artist
list: a missing `id` is replaced by `""`, everything else is untouched. -/
def setdefaultIds (artists : List Artist) : List Artist :=
  artists.map (fun a => { a with id := some (a.id.getD "") })

/-- One bucket of `_merge_matching_recordings`: the artist list captured
from the first recording of the bucket, and the accumulated release
groups. -/
abbrev Bucket := List Artist × List ReleaseGroup

/-- The inner insertion-ordered dict, keyed by artist key. -/
abbrev InnerGroups := List (String × Bucket)

/-- The outer insertion-ordered dict, keyed by title.  It combines
`grouped_by_title_and_artist` and `artists_by_title_and_artist`, whose keys
are always created together. -/
abbrev Groups := List (String × InnerGroups)

/-- Update of the inner dict for one recording: a fresh artist key appends
a bucket holding the (mutated) artist list and the recording's release
groups; an existing key keeps its position and artist list and appends the
release groups. -/
def updInner (k : String) (arts : List Artist) (rgs : List ReleaseGroup) :
    InnerGroups → InnerGroups
  | [] => [(k, (arts, rgs))]
  | (k', b) :: rest =>
    if k' = k then (k', (b.1, b.2 ++ rgs)) :: rest
    else (k', b) :: updInner k arts rgs rest

/-- Update of the outer dict for one recording: a fresh title appends an
entry at the end, an existing title is updated in place. -/
def updGroups (t k : String) (arts : List Artist) (rgs : List ReleaseGroup) :
    Groups → Groups
  | [] => [(t, updInner k arts rgs [])]
  | (t', inner) :: rest =>
    if t' = t then (t', updInner k arts rgs inner) :: rest
    else (t', inner) :: updGroups t k arts rgs rest

/-- One iteration of the merger's loop.  The state also carries the list of
recordings processed so far, recording the `setdefault` mutation of the
input.  A recording without `title` or `artists` is skipped unmodified; a
recording passing that check but lacking `releasegroups` raises `KeyError`
(`none`). -/
def mergeStepM (s : Groups × List Recording) (r : Recording) :
    Option (Groups × List Recording) :=
  match r.title, r.artists with
  | some t, some arts =>
    match r.releasegroups with
    | some rgs =>
      some (updGroups t (artistKey arts) (setdefaultIds arts) rgs s.1,
            s.2 ++ [{ r with artists := some (setdefaultIds arts) }])
    | none => none
  | _, _ => some (s.1, s.2 ++ [r])

/-- The merger's loop over all recordings. -/
def mergeFoldAux (s : Groups × List Recording) :
    List Recording → Option (Groups × List Recording)
  | [] => some s
  | r :: rs =>
    match mergeStepM s r with
    | some s' => mergeFoldAux s' rs
    | none => none

/-- First-occurrence-preserving deduplication, carrying the set of already
seen elements. -/
def dedupFirstAux {α : Type} [DecidableEq α] (seen : List α) : List α → List α
  | [] => []
  | x :: xs =>
    if x ∈ seen then dedupFirstAux seen xs
    else x :: dedupFirstAux (seen ++ [x]) xs

/-- Deduplication keeping the first occurrence of each element. -/
def dedupFirst {α : Type} [DecidableEq α] (l : List α) : List α :=
  dedupFirstAux [] l

/-- Modelled from the spec: `utils.list_helper.remove_duplicate_dicts` is
not part of the sources; the spec describes it as deduplication by full
structural equality preserving first-occurrence order. -/
def removeDuplicateDicts (releasegroups : List ReleaseGroup) : List ReleaseGroup :=
  dedupFirst releasegroups

/-- Embedding of `_filter_out_compilations_from_releasegroups`: keep only the release
groups without `secondarytypes`, unless that would empty the list. -/
def filterOutCompilationsFromReleasegroups
    (releasegroups : List ReleaseGroup) : List ReleaseGroup :=
  let filtered := releasegroups.filter (fun rg => rg.secondarytypes.isNone)
  if filtered.length ≠ 0 then filtered else releasegroups

/-- The final list comprehension of `_merge_matching_recordings`: one
merged recording per bucket, in the dicts' insertion order, release groups
deduplicated then filtered. -/
def buildMerged (g : Groups) : List MergedRecording :=
  (g.map (fun te =>
    te.2.map (fun ke =>
      { title := te.1
        artists := ke.2.1
        releasegroups :=
          filterOutCompilationsFromReleasegroups
            (removeDuplicateDicts ke.2.2) : MergedRecording }))).flatten

/-- Embedding of `_merge_matching_recordings`, dropping the mutated input list that the
caller does not look at. -/
def mergeMatchingRecordings (recordings : List Recording) :
    Option (List MergedRecording) :=
  (mergeFoldAux ([], []) recordings).map (fun s => buildMerged s.1)

/-- Modelled from the spec: `utils.list_helper.flatten` is not part of the
sources; the spec describes the extraction as concatenating the recordings
lists in result-entry order, then within-entry order. -/
def flatten {α : Type} (l : List (List α)) : List α :=
  l.flatten

/-- The flat recording sequence of `_extract_recordings`: the `recordings`
list of every result entry that has one, concatenated in order. -/
def allRecordingsOf (results : List ResultEntry) : List Recording :=
  flatten (results.filterMap (fun entry => entry.recordings))

/-- Embedding of `_extract_recordings`: flatten, then merge. -/
def extractRecordings (results : List ResultEntry) :
    Option (List MergedRecording) :=
  mergeMatchingRecordings (allRecordingsOf results)

/-- Embedding of `_get_result_for_releasegroup`: one metadata record for one release
group. -/
def getResultForReleasegroup (releasegroup : ReleaseGroup)
    (artistName : String) (title : String) : TrackMetadata :=
  { artist := artistName
    title := title
    album :=
      match releasegroup.title with
      | some t => some t
      | none => releasegroup.name
    albumartist := releasegroup.artists.map joinArtistNames }

/-- One iteration of `_get_results_for_recordings`: register the
`title + "_" + artist` key if new, then append one record per release
group.  A merged recording always carries `title` and `artists`, so the
source's presence check on them never skips here. -/
def resultsStep (s : List String × List TrackMetadata)
    (r : MergedRecording) : List String × List TrackMetadata :=
  let artistName := joinArtistNames r.artists
  let key := r.title ++ "_" ++ artistName
  ((if key ∈ s.1 then s.1 else s.1 ++ [key]),
   s.2 ++ r.releasegroups.map
     (fun rg => getResultForReleasegroup rg artistName r.title))

/-- Embedding of `_get_results_for_recordings`, with the global submission registry
`titles_identified_by_acoustid` threaded explicitly: returns the updated
registry and the output list. -/
def getResultsForRecordings (registry : List String)
    (recordings : List MergedRecording) : List String × List TrackMetadata :=
  recordings.foldl resultsStep (registry, [])

/-- Embedding of `_parse_lookup_result`: validate the response, extract and merge the
recordings, build the output records. -/
def parseLookupResult (registry : List String) (data : LookupResponse) :
    Except LookupError (List String × List TrackMetadata) :=
  if data.status ≠ "ok" then
    .error (.webServiceError ("status: " ++ data.status))
  else
    match data.results with
    | none => .error (.webServiceError "results not included")
    | some results =>
      match extractRecordings results with
      | none => .error (.keyError "releasegroups")
      | some merged => .ok (getResultsForRecordings registry merged)

/-! ### Specification-side descriptions

The following definitions restate, directly in terms of the flat input
sequence, what the merger computes: which recordings pass the
completeness check, the first-insertion orders of the two levels of the
grouping, and the contents of each bucket.  The theorems below prove that
the imperative fold above realizes exactly these descriptions. -/

/-- The identity key of a recording, when it passes the completeness
check. -/
def recKey (r : Recording) : Option (String × String) :=
  match r.title, r.artists with
  | some t, some arts => some (t, artistKey arts)
  | _, _ => none

/-- The mutation the merge loop performs on one input recording: for a
recording passing the completeness check, every artist lacking an `id`
gets `id = ""` inserted; nothing else changes. -/
def mutateRecording (r : Recording) : Recording :=
  match r.title, r.artists with
  | some _, some arts => { r with artists := some (setdefaultIds arts) }
  | _, _ => r

/-- The contribution of one recording to the grouping: its title, its
artist key, its artist list after the `setdefault` mutation, and its
release groups.  `none` when the completeness check skips the recording or
`releasegroups` is absent. -/
structure Item where
  t : String
  k : String
  arts : List Artist
  rgs : List ReleaseGroup
deriving DecidableEq

/-- The item of one recording, if any. -/
def itemOf (r : Recording) : Option Item :=
  match r.title, r.artists, r.releasegroups with
  | some t, some arts, some rgs =>
    some { t := t, k := artistKey arts, arts := setdefaultIds arts, rgs := rgs }
  | _, _, _ => none

/-- The items of a flat recording sequence, in encounter order. -/
def items (rs : List Recording) : List Item :=
  rs.filterMap itemOf

/-- The titles of the grouping, in first-insertion order. -/
def titlesOf (its : List Item) : List String :=
  dedupFirst (its.map (fun i => i.t))

/-- The artist keys grouped under one title, in first-insertion order. -/
def keysOf (t : String) (its : List Item) : List String :=
  dedupFirst ((its.filter (fun i => i.t == t)).map (fun i => i.k))

/-- The artist list stored in the bucket of `(t, k)`: the one of the first
contributing recording. -/
def firstArts (t k : String) (its : List Item) : List Artist :=
  ((its.find? (fun i => i.t == t && i.k == k)).map (fun i => i.arts)).getD []

/-- The release groups accumulated in the bucket of `(t, k)`: every
contributing recording's release groups, concatenated in encounter order,
duplicates included. -/
def collectRgs (t k : String) (its : List Item) : List ReleaseGroup :=
  ((its.filter (fun i => i.t == t && i.k == k)).map (fun i => i.rgs)).flatten

/-- One inner-dict entry of the non-iterative description. -/
def innerEntry (its : List Item) (t : String) (k : String) : String × Bucket :=
  (k, (firstArts t k its, collectRgs t k its))

/-- One outer-dict entry of the non-iterative description. -/
def outerEntry (its : List Item) (t : String) : String × InnerGroups :=
  (t, (keysOf t its).map (innerEntry its t))

/-- The grouping the merge loop builds, described non-iteratively. -/
def groupsOf (its : List Item) : Groups :=
  (titlesOf its).map (outerEntry its)

/-- One recording of the merger's output, described non-iteratively. -/
def mergedAt (t k : String) (its : List Item) : MergedRecording :=
  { title := t
    artists := firstArts t k its
    releasegroups :=
      filterOutCompilationsFromReleasegroups
        (removeDuplicateDicts (collectRgs t k its)) }

/-- The `updGroups`-step over an item. -/
def updItem (g : Groups) (i : Item) : Groups :=
  updGroups i.t i.k i.arts i.rgs g

/-! ### Lemmas about first-occurrence deduplication -/

theorem mem_dedupFirstAux {α : Type} [DecidableEq α] (l : List α) :
    ∀ (seen : List α) (x : α),
      x ∈ dedupFirstAux seen l ↔ x ∈ l ∧ x ∉ seen := by
  induction l with
  | nil => intro seen x; simp [dedupFirstAux]
  | cons y ys ih =>
    intro seen x
    by_cases hy : y ∈ seen
    · simp only [dedupFirstAux, if_pos hy, ih, List.mem_cons]
      constructor
      · intro h; exact ⟨Or.inr h.1, h.2⟩
      · rintro ⟨hxy | hxy, hx⟩
        · exact absurd (hxy ▸ hy) hx
        · exact ⟨hxy, hx⟩
    · simp only [dedupFirstAux, if_neg hy, List.mem_cons, ih,
        List.mem_append, List.mem_singleton, List.not_mem_nil, or_false]
      constructor
      · rintro (rfl | ⟨hxy, hx⟩)
        · exact ⟨Or.inl rfl, hy⟩
        · push_neg at hx
          exact ⟨Or.inr hxy, hx.1⟩
      · rintro ⟨rfl | hxy, hx⟩
        · exact Or.inl rfl
        · by_cases hxy2 : x = y
          · exact Or.inl hxy2
          · push_neg
            exact Or.inr ⟨hxy, hx, hxy2⟩

theorem mem_dedupFirst {α : Type} [DecidableEq α] (l : List α) (x : α) :
    x ∈ dedupFirst l ↔ x ∈ l := by
  simp [dedupFirst, mem_dedupFirstAux]

theorem nodup_dedupFirstAux {α : Type} [DecidableEq α] (l : List α) :
    ∀ seen : List α, (dedupFirstAux seen l).Nodup := by
  induction l with
  | nil => intro seen; simp [dedupFirstAux]
  | cons y ys ih =>
    intro seen
    by_cases hy : y ∈ seen
    · simpa [dedupFirstAux, if_pos hy] using ih seen
    · rw [dedupFirstAux, if_neg hy, List.nodup_cons]
      refine ⟨fun hc => ?_, ih (seen ++ [y])⟩
      exact ((mem_dedupFirstAux ys (seen ++ [y]) y).1 hc).2 (by simp)

theorem nodup_dedupFirst {α : Type} [DecidableEq α] (l : List α) :
    (dedupFirst l).Nodup :=
  nodup_dedupFirstAux l []

theorem dedupFirstAux_append_single {α : Type} [DecidableEq α] (l : List α) :
    ∀ (seen : List α) (x : α),
      dedupFirstAux seen (l ++ [x]) =
        dedupFirstAux seen l ++ (if x ∈ seen ∨ x ∈ l then [] else [x]) := by
  induction l with
  | nil => intro seen x; by_cases hx : x ∈ seen <;> simp [dedupFirstAux, hx]
  | cons y ys ih =>
    intro seen x
    by_cases hy : y ∈ seen
    · rw [List.cons_append, dedupFirstAux, if_pos hy, dedupFirstAux,
        if_pos hy, ih]
      by_cases hxy : x = y
      · simp [hxy, hy]
      · simp [List.mem_cons, hxy]
    · rw [List.cons_append, dedupFirstAux, if_neg hy, dedupFirstAux,
        if_neg hy, ih, List.cons_append]
      congr 1
      by_cases hxy : x = y
      · simp [hxy]
      · simp [List.mem_append, List.mem_cons, hxy]

theorem dedupFirst_append_single {α : Type} [DecidableEq α]
    (l : List α) (x : α) :
    dedupFirst (l ++ [x]) = dedupFirst l ++ (if x ∈ l then [] else [x]) := by
  rw [dedupFirst, dedupFirstAux_append_single, dedupFirst]
  simp

/-! ### Lemmas about the insertion-ordered dictionary updates -/

theorem updInner_of_not_mem (k : String) (arts : List Artist)
    (rgs : List ReleaseGroup) (inner : InnerGroups)
    (h : ∀ p ∈ inner, p.1 ≠ k) :
    updInner k arts rgs inner = inner ++ [(k, (arts, rgs))] := by
  induction inner with
  | nil => rfl
  | cons p rest ih =>
    obtain ⟨k', b⟩ := p
    rw [updInner, if_neg (h (k', b) (List.mem_cons_self _ _)),
      List.cons_append, ih (fun q hq => h q (List.mem_cons_of_mem _ hq))]

theorem updInner_of_split (k : String) (arts : List Artist)
    (rgs : List ReleaseGroup) (A B : InnerGroups) (b : Bucket)
    (h : k ∉ A.map Prod.fst) :
    updInner k arts rgs (A ++ (k, b) :: B) =
      A ++ (k, (b.1, b.2 ++ rgs)) :: B := by
  induction A with
  | nil => simp [updInner]
  | cons p rest ih =>
    obtain ⟨k', b'⟩ := p
    have hk : k' ≠ k := by
      intro hc
      exact h (by simp [hc])
    rw [List.cons_append, updInner, if_neg hk, List.cons_append,
      ih (fun hc => h (List.mem_cons_of_mem _ hc))]

theorem updGroups_of_not_mem (t k : String) (arts : List Artist)
    (rgs : List ReleaseGroup) (g : Groups)
    (h : ∀ p ∈ g, p.1 ≠ t) :
    updGroups t k arts rgs g = g ++ [(t, [(k, (arts, rgs))])] := by
  induction g with
  | nil => rfl
  | cons p rest ih =>
    obtain ⟨t', inner⟩ := p
    rw [updGroups, if_neg (h (t', inner) (List.mem_cons_self _ _)),
      List.cons_append, ih (fun q hq => h q (List.mem_cons_of_mem _ hq))]

theorem updGroups_of_split (t k : String) (arts : List Artist)
    (rgs : List ReleaseGroup) (A B : Groups) (inner : InnerGroups)
    (h : t ∉ A.map Prod.fst) :
    updGroups t k arts rgs (A ++ (t, inner) :: B) =
      A ++ (t, updInner k arts rgs inner) :: B := by
  induction A with
  | nil => simp [updGroups]
  | cons p rest ih =>
    obtain ⟨t', inner'⟩ := p
    have ht : t' ≠ t := by
      intro hc
      exact h (by simp [hc])
    rw [List.cons_append, updGroups, if_neg ht, List.cons_append,
      ih (fun hc => h (List.mem_cons_of_mem _ hc))]

/-! ### How the non-iterative description evolves under one more item -/

theorem titlesOf_mem_iff (t : String) (its : List Item) :
    t ∈ titlesOf its ↔ ∃ i ∈ its, i.t = t := by
  simp [titlesOf, mem_dedupFirst, List.mem_map]

theorem keysOf_mem_iff (t k : String) (its : List Item) :
    k ∈ keysOf t its ↔ ∃ i ∈ its, i.t = t ∧ i.k = k := by
  simp only [keysOf, mem_dedupFirst, List.mem_map, List.mem_filter,
    beq_iff_eq]
  constructor
  · rintro ⟨i, ⟨hi, ht⟩, hk⟩
    exact ⟨i, hi, ht, hk⟩
  · rintro ⟨i, hi, ht, hk⟩
    exact ⟨i, ⟨hi, ht⟩, hk⟩

theorem titlesOf_append_single (its : List Item) (i : Item) :
    titlesOf (its ++ [i]) =
      titlesOf its ++ (if i.t ∈ titlesOf its then [] else [i.t]) := by
  rw [titlesOf, List.map_append]
  simp only [List.map_cons, List.map_nil]
  rw [dedupFirst_append_single]
  rw [titlesOf]
  congr 1
  refine if_congr ?_ rfl rfl
  rw [mem_dedupFirst]

theorem keysOf_append_single_ne (t : String) (its : List Item) (i : Item)
    (h : i.t ≠ t) :
    keysOf t (its ++ [i]) = keysOf t its := by
  rw [keysOf, List.filter_append, keysOf]
  have hb : (i.t == t) = false := beq_eq_false_iff_ne.2 h
  have : List.filter (fun j => j.t == t) [i] = [] := by
    simp [List.filter, hb]
  rw [this, List.append_nil]

theorem keysOf_append_single_eq (its : List Item) (i : Item) :
    keysOf i.t (its ++ [i]) =
      keysOf i.t its ++ (if i.k ∈ keysOf i.t its then [] else [i.k]) := by
  rw [keysOf, List.filter_append]
  have : List.filter (fun j => j.t == i.t) [i] = [i] := by
    simp [List.filter]
  rw [this, List.map_append]
  simp only [List.map_cons, List.map_nil]
  rw [dedupFirst_append_single, keysOf]
  congr 1
  refine if_congr ?_ rfl rfl
  rw [mem_dedupFirst]

theorem collectRgs_append_single_ne (t k : String) (its : List Item)
    (i : Item) (h : i.t ≠ t ∨ i.k ≠ k) :
    collectRgs t k (its ++ [i]) = collectRgs t k its := by
  rw [collectRgs, List.filter_append, collectRgs]
  have : List.filter (fun j => j.t == t && j.k == k) [i] = [] := by
    rcases h with h | h <;>
      simp [List.filter, beq_eq_false_iff_ne.2 h]
  rw [this, List.append_nil]

theorem collectRgs_append_single_eq (its : List Item) (i : Item) :
    collectRgs i.t i.k (its ++ [i]) = collectRgs i.t i.k its ++ i.rgs := by
  rw [collectRgs, List.filter_append]
  have : List.filter (fun j => j.t == i.t && j.k == i.k) [i] = [i] := by
    simp [List.filter]
  rw [this, List.map_append, List.flatten_append, collectRgs]
  simp

theorem firstArts_append_single_ne (t k : String) (its : List Item)
    (i : Item) (h : i.t ≠ t ∨ i.k ≠ k) :
    firstArts t k (its ++ [i]) = firstArts t k its := by
  rw [firstArts, List.find?_append, firstArts]
  have : List.find? (fun j => j.t == t && j.k == k) [i] = none := by
    rcases h with h | h <;>
      simp [List.find?, beq_eq_false_iff_ne.2 h]
  rw [this, Option.or_none]

theorem firstArts_append_of_mem (t k : String) (its : List Item) (i : Item)
    (h : k ∈ keysOf t its) :
    firstArts t k (its ++ [i]) = firstArts t k its := by
  obtain ⟨j, hj, hjt, hjk⟩ := (keysOf_mem_iff t k its).1 h
  have hsome : (List.find? (fun j => j.t == t && j.k == k) its).isSome := by
    rw [List.find?_isSome]
    exact ⟨j, hj, by simp [hjt, hjk]⟩
  obtain ⟨v, hv⟩ := Option.isSome_iff_exists.1 hsome
  rw [firstArts, List.find?_append, hv, Option.or, firstArts, hv]

theorem firstArts_append_of_not_mem (its : List Item) (i : Item)
    (h : i.k ∉ keysOf i.t its) :
    firstArts i.t i.k (its ++ [i]) = i.arts := by
  have hnone : List.find? (fun j => j.t == i.t && j.k == i.k) its = none := by
    rw [List.find?_eq_none]
    intro j hj hp
    simp only [Bool.and_eq_true, beq_iff_eq] at hp
    exact h ((keysOf_mem_iff i.t i.k its).2 ⟨j, hj, hp.1, hp.2⟩)
  have hi : List.find? (fun j => j.t == i.t && j.k == i.k) [i] = some i := by
    simp [List.find?]
  rw [firstArts, List.find?_append, hnone, hi, Option.or]
  rfl

/-! ### The fold realizes the non-iterative description -/

theorem keysOf_eq_nil_of_not_mem_titles (t : String) (its : List Item)
    (h : t ∉ titlesOf its) : keysOf t its = [] := by
  rw [keysOf]
  have hf : its.filter (fun j => j.t == t) = [] := by
    rw [List.filter_eq_nil_iff]
    intro j hj
    simp only [beq_iff_eq]
    exact fun hc => h ((titlesOf_mem_iff t its).2 ⟨j, hj, hc⟩)
  rw [hf]
  rfl

theorem collectRgs_eq_nil_of_not_mem_keys (t k : String) (its : List Item)
    (h : k ∉ keysOf t its) : collectRgs t k its = [] := by
  rw [collectRgs]
  have hf : its.filter (fun j => j.t == t && j.k == k) = [] := by
    rw [List.filter_eq_nil_iff]
    intro j hj
    simp only [Bool.and_eq_true, beq_iff_eq, not_and]
    intro h1 h2
    exact h ((keysOf_mem_iff t k its).2 ⟨j, hj, h1, h2⟩)
  rw [hf]
  rfl

theorem map_fst_outerEntry (its : List Item) (A : List String) :
    (A.map (outerEntry its)).map Prod.fst = A := by
  simp [outerEntry, List.map_map, Function.comp_def]

theorem map_fst_innerEntry (its : List Item) (t : String) (A : List String) :
    (A.map (innerEntry its t)).map Prod.fst = A := by
  simp [innerEntry, List.map_map, Function.comp_def]

theorem outerEntry_append_ne (its : List Item) (i : Item) (t : String)
    (h : t ≠ i.t) : outerEntry (its ++ [i]) t = outerEntry its t := by
  rw [outerEntry, outerEntry, keysOf_append_single_ne t its i (Ne.symm h)]
  congr 1
  apply List.map_congr_left
  intro k hk
  rw [innerEntry, innerEntry,
    firstArts_append_single_ne t k its i (Or.inl (Ne.symm h)),
    collectRgs_append_single_ne t k its i (Or.inl (Ne.symm h))]

theorem innerEntry_append_of_mem (its : List Item) (i : Item)
    (k : String) (hk : k ∈ keysOf i.t its) (hkne : i.k ≠ k) :
    innerEntry (its ++ [i]) i.t k = innerEntry its i.t k := by
  rw [innerEntry, innerEntry, firstArts_append_of_mem i.t k its i hk,
    collectRgs_append_single_ne i.t k its i (Or.inr hkne)]

theorem groupsOf_append_single (its : List Item) (i : Item) :
    groupsOf (its ++ [i]) = updItem (groupsOf its) i := by
  by_cases ht : i.t ∈ titlesOf its
  · obtain ⟨A, B, hAB⟩ := List.append_of_mem ht
    have hnd : (A ++ i.t :: B).Nodup := hAB ▸ nodup_dedupFirst _
    have hiA : i.t ∉ A := by
      rw [List.nodup_append] at hnd
      exact fun hc => hnd.2.2 hc (List.mem_cons_self _ _)
    have hiB : i.t ∉ B := by
      rw [List.nodup_append, List.nodup_cons] at hnd
      exact hnd.2.1.1
    have houter : groupsOf its =
        A.map (outerEntry its) ++
          (i.t, (keysOf i.t its).map (innerEntry its i.t)) ::
            B.map (outerEntry its) := by
      rw [groupsOf, hAB, List.map_append, List.map_cons]
      rfl
    have hsplit : updItem (groupsOf its) i =
        A.map (outerEntry its) ++
          (i.t, updInner i.k i.arts i.rgs
            ((keysOf i.t its).map (innerEntry its i.t))) ::
            B.map (outerEntry its) := by
      rw [updItem, houter, updGroups_of_split]
      rw [map_fst_outerEntry]
      exact hiA
    have htitles : titlesOf (its ++ [i]) = A ++ i.t :: B := by
      rw [titlesOf_append_single, if_pos ht, List.append_nil, hAB]
    have hmapA : A.map (outerEntry (its ++ [i])) = A.map (outerEntry its) :=
      List.map_congr_left (fun t htm =>
        outerEntry_append_ne its i t (fun hc => hiA (hc ▸ htm)))
    have hmapB : B.map (outerEntry (its ++ [i])) = B.map (outerEntry its) :=
      List.map_congr_left (fun t htm =>
        outerEntry_append_ne its i t (fun hc => hiB (hc ▸ htm)))
    rw [hsplit, groupsOf, htitles, List.map_append, List.map_cons, hmapA,
      hmapB]
    congr 2
    -- the updated entry for the existing title
    by_cases hk : i.k ∈ keysOf i.t its
    · obtain ⟨KA, KB, hKAB⟩ := List.append_of_mem hk
      have hknd : (KA ++ i.k :: KB).Nodup := hKAB ▸ nodup_dedupFirst _
      have hkA : i.k ∉ KA := by
        rw [List.nodup_append] at hknd
        exact fun hc => hknd.2.2 hc (List.mem_cons_self _ _)
      have hkB : i.k ∉ KB := by
        rw [List.nodup_append, List.nodup_cons] at hknd
        exact hknd.2.1.1
      have hinner : (keysOf i.t its).map (innerEntry its i.t) =
          KA.map (innerEntry its i.t) ++
            (i.k, (firstArts i.t i.k its, collectRgs i.t i.k its)) ::
              KB.map (innerEntry its i.t) := by
        rw [hKAB, List.map_append, List.map_cons]
        rfl
      have hupd : updInner i.k i.arts i.rgs
          ((keysOf i.t its).map (innerEntry its i.t)) =
          KA.map (innerEntry its i.t) ++
            (i.k, (firstArts i.t i.k its,
              collectRgs i.t i.k its ++ i.rgs)) ::
              KB.map (innerEntry its i.t) := by
        rw [hinner, updInner_of_split]
        rw [map_fst_innerEntry]
        exact hkA
      have hkeys : keysOf i.t (its ++ [i]) = KA ++ i.k :: KB := by
        rw [keysOf_append_single_eq, if_pos hk, List.append_nil, hKAB]
      have hmapKA : KA.map (innerEntry (its ++ [i]) i.t) =
          KA.map (innerEntry its i.t) :=
        List.map_congr_left (fun k hkm =>
          innerEntry_append_of_mem its i k
            (hKAB ▸ List.mem_append_left _ hkm)
            (fun hc => hkA (hc ▸ hkm)))
      have hmapKB : KB.map (innerEntry (its ++ [i]) i.t) =
          KB.map (innerEntry its i.t) :=
        List.map_congr_left (fun k hkm =>
          innerEntry_append_of_mem its i k
            (hKAB ▸ List.mem_append_right _ (List.mem_cons_of_mem _ hkm))
            (fun hc => hkB (hc ▸ hkm)))
      rw [outerEntry, hkeys, List.map_append, List.map_cons, hmapKA,
        hmapKB, hupd]
      congr 2
      rw [innerEntry, firstArts_append_of_mem i.t i.k its i hk,
        collectRgs_append_single_eq]
    · have hupd : updInner i.k i.arts i.rgs
          ((keysOf i.t its).map (innerEntry its i.t)) =
          (keysOf i.t its).map (innerEntry its i.t) ++
            [(i.k, (i.arts, i.rgs))] := by
        apply updInner_of_not_mem
        intro p hp
        obtain ⟨k, hkm, rfl⟩ := List.mem_map.1 hp
        exact fun hc => hk (hc ▸ hkm)
      have hkeys : keysOf i.t (its ++ [i]) = keysOf i.t its ++ [i.k] := by
        rw [keysOf_append_single_eq, if_neg hk]
      have hmapK : (keysOf i.t its).map (innerEntry (its ++ [i]) i.t) =
          (keysOf i.t its).map (innerEntry its i.t) :=
        List.map_congr_left (fun k hkm =>
          innerEntry_append_of_mem its i k hkm (fun hc => hk (hc ▸ hkm)))
      rw [outerEntry, hkeys, List.map_append, List.map_cons, List.map_nil,
        hmapK, hupd]
      congr 2
      rw [innerEntry, firstArts_append_of_not_mem its i hk,
        collectRgs_append_single_eq,
        collectRgs_eq_nil_of_not_mem_keys i.t i.k its hk,
        List.nil_append]
  · have hfst : ∀ p ∈ groupsOf its, p.1 ≠ i.t := by
      intro p hp
      obtain ⟨t, htm, rfl⟩ := List.mem_map.1 hp
      exact fun hc => ht (hc ▸ htm)
    have hknil : keysOf i.t its = [] :=
      keysOf_eq_nil_of_not_mem_titles i.t its ht
    rw [updItem, updGroups_of_not_mem _ _ _ _ _ hfst, groupsOf,
      titlesOf_append_single, if_neg ht, List.map_append, List.map_cons,
      List.map_nil]
    congr 1
    · rw [groupsOf]
      exact List.map_congr_left (fun t htm =>
        outerEntry_append_ne its i t (fun hc => ht (hc ▸ htm)))
    · have hkeys : keysOf i.t (its ++ [i]) = [i.k] := by
        rw [keysOf_append_single_eq, hknil]
        simp
      rw [outerEntry, hkeys, List.map_cons, List.map_nil]
      congr 2
      rw [innerEntry, firstArts_append_of_not_mem its i (by simp [hknil]),
        collectRgs_append_single_eq,
        collectRgs_eq_nil_of_not_mem_keys i.t i.k its (by simp [hknil]),
        List.nil_append]

theorem foldl_updItem_eq_groupsOf (its : List Item) :
    List.foldl updItem [] its = groupsOf its := by
  induction its using List.reverseRecOn with
  | nil => rfl
  | append_singleton its i ih =>
    rw [List.foldl_append, List.foldl_cons, List.foldl_nil,
      groupsOf_append_single, ih]

/-! ### The merger's loop, characterized -/

/-- A recording passes the completeness check. -/
def passing (r : Recording) : Prop :=
  r.title.isSome ∧ r.artists.isSome

instance (r : Recording) : Decidable (passing r) := by
  unfold passing
  infer_instance

theorem itemOf_eq_none_iff (r : Recording) :
    itemOf r = none ↔ ¬passing r ∨ r.releasegroups = none := by
  rw [itemOf, passing]
  rcases r with ⟨t, a, rg⟩
  rcases t with _ | t <;> rcases a with _ | a <;> rcases rg with _ | rg <;>
    simp

theorem mergeFoldAux_eq (rs : List Recording)
    (h : ∀ r ∈ rs, passing r → r.releasegroups.isSome) :
    ∀ s : Groups × List Recording,
      mergeFoldAux s rs =
        some (List.foldl updItem s.1 (items rs),
          s.2 ++ rs.map mutateRecording) := by
  induction rs with
  | nil => intro s; simp [mergeFoldAux, items]
  | cons r rs ih =>
    intro s
    have hr := h r (List.mem_cons_self _ _)
    have hrs : ∀ r ∈ rs, passing r → r.releasegroups.isSome :=
      fun r hm => h r (List.mem_cons_of_mem _ hm)
    rcases hrt : r.title with _ | t
    · rw [mergeFoldAux]
      have hstep : mergeStepM s r = some (s.1, s.2 ++ [r]) := by
        rw [mergeStepM, hrt]
      rw [hstep]
      show mergeFoldAux (s.1, s.2 ++ [r]) rs = _
      rw [ih hrs]
      have hit : itemOf r = none := by rw [itemOf, hrt]
      have hmut : mutateRecording r = r := by rw [mutateRecording, hrt]
      have hitems : items (r :: rs) = items rs := by
        rw [items, items, List.filterMap_cons_none hit]
      rw [hitems, List.map_cons, hmut]
      simp [List.append_assoc]
    · rcases hra : r.artists with _ | arts
      · rw [mergeFoldAux]
        have hstep : mergeStepM s r = some (s.1, s.2 ++ [r]) := by
          rw [mergeStepM, hrt, hra]
        rw [hstep]
        show mergeFoldAux (s.1, s.2 ++ [r]) rs = _
        rw [ih hrs]
        have hit : itemOf r = none := by rw [itemOf, hrt, hra]
        have hmut : mutateRecording r = r := by
          rw [mutateRecording, hrt, hra]
        have hitems : items (r :: rs) = items rs := by
          rw [items, items, List.filterMap_cons_none hit]
        rw [hitems, List.map_cons, hmut]
        simp [List.append_assoc]
      · have hpass : passing r := by rw [passing, hrt, hra]; simp
        obtain ⟨rgs, hrg⟩ := Option.isSome_iff_exists.1 (hr hpass)
        rw [mergeFoldAux]
        have hstep : mergeStepM s r =
            some (updGroups t (artistKey arts) (setdefaultIds arts) rgs s.1,
              s.2 ++ [{ r with artists := some (setdefaultIds arts) }]) := by
          rw [mergeStepM, hrt, hra, hrg]
        rw [hstep]
        show mergeFoldAux
          (updGroups t (artistKey arts) (setdefaultIds arts) rgs s.1,
            s.2 ++ [{ r with artists := some (setdefaultIds arts) }]) rs = _
        rw [ih hrs]
        have hit : itemOf r = some
            { t := t, k := artistKey arts, arts := setdefaultIds arts,
              rgs := rgs } := by
          rw [itemOf, hrt, hra, hrg]
        have hmut : mutateRecording r =
            { r with artists := some (setdefaultIds arts) } := by
          rw [mutateRecording, hrt, hra]
        have hitems : items (r :: rs) =
            { t := t, k := artistKey arts, arts := setdefaultIds arts,
              rgs := rgs } :: items rs := by
          rw [items, items, List.filterMap_cons_some hit]
        rw [hitems, List.map_cons, hmut, List.foldl_cons]
        simp [updItem, List.append_assoc]

theorem mergeFoldAux_eq_none (rs : List Recording)
    (h : ∃ r ∈ rs, passing r ∧ r.releasegroups = none) :
    ∀ s : Groups × List Recording, mergeFoldAux s rs = none := by
  induction rs with
  | nil => obtain ⟨r, hm, _⟩ := h; exact absurd hm (List.not_mem_nil r)
  | cons r rs ih =>
    intro s
    obtain ⟨r', hm, hpass, hrg⟩ := h
    rcases List.mem_cons.1 hm with rfl | hm
    · obtain ⟨t, hrt⟩ := Option.isSome_iff_exists.1 hpass.1
      obtain ⟨arts, hra⟩ := Option.isSome_iff_exists.1 hpass.2
      rw [mergeFoldAux, mergeStepM, hrt, hra, hrg]
    · rw [mergeFoldAux]
      rcases hstep : mergeStepM s r with _ | s'
      · rfl
      · exact ih ⟨r', hm, hpass, hrg⟩ s'

/-- If the merge succeeds, every recording passing the completeness check
carries `releasegroups`. -/
theorem merge_some_no_missing_releasegroups (rs : List Recording)
    (out : List MergedRecording)
    (h : mergeMatchingRecordings rs = some out) :
    ∀ r ∈ rs, passing r → r.releasegroups.isSome := by
  intro r hm hpass
  by_contra hc
  have hrg : r.releasegroups = none := Option.not_isSome_iff_eq_none.1 hc
  have hnone := mergeFoldAux_eq_none rs ⟨r, hm, hpass, hrg⟩ ([], [])
  rw [mergeMatchingRecordings, hnone] at h
  exact Option.noConfusion h

/-- If the merge succeeds, its output is the non-iterative description. -/
theorem merge_some_eq (rs : List Recording) (out : List MergedRecording)
    (h : mergeMatchingRecordings rs = some out) :
    out = buildMerged (groupsOf (items rs)) := by
  have hpre := merge_some_no_missing_releasegroups rs out h
  have heq := mergeFoldAux_eq rs hpre ([], [])
  rw [mergeMatchingRecordings, heq] at h
  simp only [Option.map_some] at h
  rw [← Option.some_inj.1 h, foldl_updItem_eq_groupsOf]

/-! ### Locating one bucket inside the merger's output -/

theorem buildMerged_groupsOf (its : List Item) :
    buildMerged (groupsOf its) =
      ((titlesOf its).map (fun t =>
        (keysOf t its).map (fun k => mergedAt t k its))).flatten := by
  rw [buildMerged, groupsOf, List.map_map]
  congr 1
  apply List.map_congr_left
  intro t ht
  simp only [Function.comp_def, outerEntry, List.map_map]
  apply List.map_congr_left
  intro k hk
  rfl

theorem artistKey_setdefaultIds (a : List Artist) :
    artistKey (setdefaultIds a) = artistKey a := by
  simp [artistKey, setdefaultIds, List.map_map, Function.comp_def]

theorem items_key_inv (rs : List Recording) :
    ∀ i ∈ items rs, artistKey i.arts = i.k := by
  intro i hi
  rw [items, List.mem_filterMap] at hi
  obtain ⟨r, _, hr⟩ := hi
  rcases r with ⟨t, a, g⟩
  rcases t with _ | t <;> rcases a with _ | a <;> rcases g with _ | g <;>
    simp only [itemOf] at hr
  all_goals first
    | exact Option.noConfusion hr
    | (rw [Option.some_inj] at hr
       rw [← hr]
       exact artistKey_setdefaultIds a)

theorem find?_eq_head?_filter {α : Type} (p : α → Bool) (l : List α) :
    l.find? p = (l.filter p).head? := by
  induction l with
  | nil => rfl
  | cons a l ih =>
    cases hp : p a
    · rw [List.find?_cons, List.filter_cons, hp]
      show List.find? p l = (List.filter p l).head?
      exact ih
    · rw [List.find?_cons, List.filter_cons, hp]
      rfl

theorem firstArts_mem_spec (t k : String) (its : List Item)
    (hk : k ∈ keysOf t its) :
    ∃ i, i ∈ its ∧ i.t = t ∧ i.k = k ∧ firstArts t k its = i.arts := by
  obtain ⟨j, hj, hjt, hjk⟩ := (keysOf_mem_iff t k its).1 hk
  have hsome : (List.find? (fun i => i.t == t && i.k == k) its).isSome := by
    rw [List.find?_isSome]
    exact ⟨j, hj, by simp [hjt, hjk]⟩
  obtain ⟨v, hv⟩ := Option.isSome_iff_exists.1 hsome
  have hpv := List.find?_some hv
  simp only [Bool.and_eq_true, beq_iff_eq] at hpv
  refine ⟨v, List.mem_of_find?_eq_some hv, hpv.1, hpv.2, ?_⟩
  rw [firstArts, hv]
  rfl

theorem artistKey_firstArts (t k : String) (its : List Item)
    (hinv : ∀ i ∈ its, artistKey i.arts = i.k) (hk : k ∈ keysOf t its) :
    artistKey (firstArts t k its) = k := by
  obtain ⟨i, hi, _, hik, hfa⟩ := firstArts_mem_spec t k its hk
  rw [hfa, hinv i hi, hik]

theorem nodup_filter_beq {α : Type} [DecidableEq α] (l : List α)
    (hnd : l.Nodup) (k : α) :
    l.filter (fun x => x == k) = if k ∈ l then [k] else [] := by
  induction l with
  | nil => simp
  | cons a l ih =>
    rw [List.nodup_cons] at hnd
    by_cases hak : a = k
    · subst hak
      rw [List.filter_cons, if_pos (by simp), if_pos (List.mem_cons_self _ _)]
      have : l.filter (fun x => x == a) = [] := by
        rw [List.filter_eq_nil_iff]
        intro x hx hc
        rw [beq_iff_eq] at hc
        exact hnd.1 (hc ▸ hx)
      rw [this]
    · rw [List.filter_cons, if_neg (by simp [hak]), ih hnd.2]
      by_cases hkl : k ∈ l
      · rw [if_pos hkl, if_pos (List.mem_cons_of_mem _ hkl)]
      · rw [if_neg hkl, if_neg (fun hc =>
          (List.mem_cons.1 hc).elim (fun h1 => hak h1.symm) hkl)]

theorem flatten_map_ite {α β : Type} [DecidableEq α] (l : List α)
    (h : α → List β) (a : α) (hnd : l.Nodup)
    (hzero : ∀ x ∈ l, x ≠ a → h x = []) :
    (l.map h).flatten = if a ∈ l then h a else [] := by
  induction l with
  | nil => simp
  | cons x l ih =>
    rw [List.nodup_cons] at hnd
    rw [List.map_cons, List.flatten_cons]
    by_cases hxa : x = a
    · subst hxa
      have : (l.map h).flatten = [] := by
        rw [List.flatten_eq_nil_iff]
        intro y hy
        obtain ⟨z, hz, rfl⟩ := List.mem_map.1 hy
        exact hzero z (List.mem_cons_of_mem _ hz) (fun hc => hnd.1 (hc ▸ hz))
      rw [this, if_pos (List.mem_cons_self _ _), List.append_nil]
    · rw [hzero x (List.mem_cons_self _ _) hxa, List.nil_append,
        ih hnd.2 (fun y hy => hzero y (List.mem_cons_of_mem _ hy))]
      by_cases hal : a ∈ l
      · rw [if_pos hal, if_pos (List.mem_cons_of_mem _ hal)]
      · rw [if_neg hal, if_neg (fun hc =>
          (List.mem_cons.1 hc).elim (fun h1 => hxa h1.symm) hal)]

theorem nodup_titlesOf (its : List Item) : (titlesOf its).Nodup :=
  nodup_dedupFirst _

theorem nodup_keysOf (t : String) (its : List Item) : (keysOf t its).Nodup :=
  nodup_dedupFirst _

theorem buildMerged_filter_bucket (its : List Item)
    (hinv : ∀ i ∈ its, artistKey i.arts = i.k) (t k : String) :
    (buildMerged (groupsOf its)).filter
        (fun m => m.title == t && artistKey m.artists == k) =
      if t ∈ titlesOf its ∧ k ∈ keysOf t its then [mergedAt t k its]
      else [] := by
  rw [buildMerged_groupsOf, List.filter_flatten, List.map_map]
  have hpoint : ∀ t' ∈ titlesOf its,
      (List.filter (fun m => m.title == t && artistKey m.artists == k) ∘
        fun t'' => (keysOf t'' its).map (fun k' => mergedAt t'' k' its)) t' =
      (fun t'' => if t'' = t then
        (if k ∈ keysOf t its then [mergedAt t k its] else []) else []) t' := by
    intro t' _
    simp only [Function.comp_def]
    by_cases ht' : t' = t
    · rw [if_pos ht', ht', List.filter_map]
      have hcongr : (keysOf t its).filter
          ((fun m => m.title == t && artistKey m.artists == k) ∘
            (fun k' => mergedAt t k' its)) =
          (keysOf t its).filter (fun k' => k' == k) := by
        apply List.filter_congr
        intro k' hk'
        simp only [Function.comp_def, mergedAt]
        rw [artistKey_firstArts t k' its hinv hk']
        simp
      rw [hcongr, nodup_filter_beq _ (nodup_keysOf t its) k]
      by_cases hk : k ∈ keysOf t its
      · rw [if_pos hk, if_pos hk, List.map_cons, List.map_nil]
      · rw [if_neg hk, if_neg hk, List.map_nil]
    · rw [if_neg ht', List.filter_map]
      have hnil : (keysOf t' its).filter
          ((fun m => m.title == t && artistKey m.artists == k) ∘
            (fun k' => mergedAt t' k' its)) = [] := by
        rw [List.filter_eq_nil_iff]
        intro k' _ hc
        simp only [Function.comp_def, mergedAt, Bool.and_eq_true,
          beq_iff_eq] at hc
        exact ht' hc.1
      rw [hnil, List.map_nil]
  rw [List.map_congr_left hpoint,
    flatten_map_ite (titlesOf its) _ t (nodup_titlesOf its)
      (fun t' _ hne => if_neg hne)]
  by_cases ht : t ∈ titlesOf its
  · rw [if_pos ht]
    show (if t = t then
      (if k ∈ keysOf t its then [mergedAt t k its] else []) else []) = _
    rw [if_pos rfl]
    by_cases hk : k ∈ keysOf t its
    · rw [if_pos hk, if_pos ⟨ht, hk⟩]
    · rw [if_neg hk, if_neg (fun hc => hk hc.2)]
  · rw [if_neg ht, if_neg (fun hc => ht hc.1)]

/-! ### Relating buckets back to the recordings of the input sequence -/

/-- The recordings of `rs` that pass the completeness check and carry the
identity key `(t, k)`, in encounter order. -/
def matchingRecs (rs : List Recording) (t k : String) : List Recording :=
  rs.filter (fun r => decide (recKey r = some (t, k)))

theorem recKey_some_spec (r : Recording) (t k : String)
    (h : recKey r = some (t, k)) :
    r.title = some t ∧ ∃ a, r.artists = some a ∧ artistKey a = k := by
  rcases hrt : r.title with _ | t' <;> rcases hra : r.artists with _ | a <;>
    rw [recKey, hrt, hra] at h
  · exact Option.noConfusion h
  · exact Option.noConfusion h
  · exact Option.noConfusion h
  · rw [Option.some_inj, Prod.mk.injEq] at h
    exact ⟨by rw [h.1], a, rfl, h.2⟩

theorem items_filter_key (rs : List Recording) (t k : String)
    (h : ∀ r ∈ rs, passing r → r.releasegroups.isSome) :
    (items rs).filter (fun i => i.t == t && i.k == k) =
      (matchingRecs rs t k).filterMap itemOf := by
  induction rs with
  | nil => rfl
  | cons r rs ih =>
    have hr := h r (List.mem_cons_self _ _)
    have hrs : ∀ r ∈ rs, passing r → r.releasegroups.isSome :=
      fun r hm => h r (List.mem_cons_of_mem _ hm)
    rcases hrt : r.title with _ | t'
    · have hit : itemOf r = none := by rw [itemOf, hrt]
      have hrk : recKey r = none := by rw [recKey, hrt]
      have h1 : items (r :: rs) = items rs := by
        rw [items, items, List.filterMap_cons_none hit]
      have h2 : matchingRecs (r :: rs) t k = matchingRecs rs t k := by
        rw [matchingRecs, List.filter_cons, if_neg (by simp [hrk]),
          matchingRecs]
      rw [h1, h2, ih hrs]
    · rcases hra : r.artists with _ | a
      · have hit : itemOf r = none := by rw [itemOf, hrt, hra]
        have hrk : recKey r = none := by rw [recKey, hrt, hra]
        have h1 : items (r :: rs) = items rs := by
          rw [items, items, List.filterMap_cons_none hit]
        have h2 : matchingRecs (r :: rs) t k = matchingRecs rs t k := by
          rw [matchingRecs, List.filter_cons, if_neg (by simp [hrk]),
            matchingRecs]
        rw [h1, h2, ih hrs]
      · have hpass : passing r := by rw [passing, hrt, hra]; simp
        obtain ⟨rgs, hrg⟩ := Option.isSome_iff_exists.1 (hr hpass)
        have hit : itemOf r = some
            { t := t', k := artistKey a, arts := setdefaultIds a,
              rgs := rgs } := by
          rw [itemOf, hrt, hra, hrg]
        have hrk : recKey r = some (t', artistKey a) := by
          rw [recKey, hrt, hra]
        have h1 : items (r :: rs) =
            { t := t', k := artistKey a, arts := setdefaultIds a,
              rgs := rgs } :: items rs := by
          rw [items, items, List.filterMap_cons_some hit]
        by_cases hc : t' = t ∧ artistKey a = k
        · have h2 : matchingRecs (r :: rs) t k = r :: matchingRecs rs t k := by
            rw [matchingRecs, List.filter_cons,
              if_pos (by simp [hrk, hc.1, hc.2]), matchingRecs]
          rw [h1, h2, List.filter_cons, if_pos (by simp [hc.1, hc.2]),
            List.filterMap_cons_some hit, ih hrs]
        · have h2 : matchingRecs (r :: rs) t k = matchingRecs rs t k := by
            rw [matchingRecs, List.filter_cons, if_neg (by
              simp only [hrk, decide_eq_true_eq, Option.some_inj,
                Prod.mk.injEq, not_and]
              intro h1' h2'
              exact hc ⟨h1', h2'⟩), matchingRecs]
          rw [h1, h2, List.filter_cons, if_neg (by
            simp only [Bool.and_eq_true, beq_iff_eq, not_and]
            intro h1' h2'
            exact hc ⟨h1', h2'⟩), ih hrs]

theorem items_append (xs ys : List Recording) :
    items (xs ++ ys) = items xs ++ items ys := by
  rw [items, items, items, List.filterMap_append]

theorem mergeFoldAux_some_pre (rs : List Recording)
    (s res : Groups × List Recording) (h : mergeFoldAux s rs = some res) :
    ∀ r ∈ rs, passing r → r.releasegroups.isSome := by
  intro r hm hpass
  by_contra hc
  have hrg : r.releasegroups = none := Option.not_isSome_iff_eq_none.1 hc
  rw [mergeFoldAux_eq_none rs ⟨r, hm, hpass, hrg⟩ s] at h
  exact Option.noConfusion h

/-! ### The result builder's fold, characterized -/

theorem resultsStep_eq (s : List String × List TrackMetadata)
    (m : MergedRecording) :
    resultsStep s m =
      ((if (m.title ++ "_" ++ joinArtistNames m.artists) ∈ s.1 then s.1
        else s.1 ++ [m.title ++ "_" ++ joinArtistNames m.artists]),
       s.2 ++ m.releasegroups.map
         (fun rg => getResultForReleasegroup rg
           (joinArtistNames m.artists) m.title)) := rfl

theorem resultsFold_snd (ms : List MergedRecording) :
    ∀ (st : List String) (acc : List TrackMetadata),
      (List.foldl resultsStep (st, acc) ms).2 =
        acc ++ (ms.map (fun m => m.releasegroups.map
          (fun rg => getResultForReleasegroup rg
            (joinArtistNames m.artists) m.title))).flatten := by
  induction ms with
  | nil => intro st acc; simp
  | cons m ms ih =>
    intro st acc
    rw [List.foldl_cons, resultsStep_eq, ih]
    simp [List.append_assoc]

theorem resultsFold_fst (ms : List MergedRecording) :
    ∀ (st : List String) (acc : List TrackMetadata),
      (List.foldl resultsStep (st, acc) ms).1 =
        st ++ dedupFirstAux st
          (ms.map (fun m => m.title ++ "_" ++ joinArtistNames m.artists)) := by
  induction ms with
  | nil => intro st acc; simp [dedupFirstAux]
  | cons m ms ih =>
    intro st acc
    rw [List.foldl_cons, resultsStep_eq, List.map_cons, dedupFirstAux]
    by_cases hmem : (m.title ++ "_" ++ joinArtistNames m.artists) ∈ st
    · rw [if_pos hmem, if_pos hmem, ih]
    · rw [if_neg hmem, if_neg hmem, ih]
      simp [List.append_assoc]

theorem buildMerged_map_key (its : List Item)
    (hinv : ∀ i ∈ its, artistKey i.arts = i.k) :
    (buildMerged (groupsOf its)).map
        (fun m => (m.title, artistKey m.artists)) =
      ((titlesOf its).map (fun t =>
        (keysOf t its).map (fun k => (t, k)))).flatten := by
  rw [buildMerged_groupsOf, List.map_flatten, List.map_map]
  congr 1
  apply List.map_congr_left
  intro t ht
  simp only [Function.comp_def, List.map_map]
  apply List.map_congr_left
  intro k hk
  simp only [mergedAt]
  rw [artistKey_firstArts t k its hinv hk]

/-! ### The claims -/

/-- C2: for every list of release groups given to the Release Group
Filter, if at least one member has no `secondarytypes` field the result is
exactly the members without `secondarytypes` in order; if every member has
`secondarytypes` the result is the original list unchanged; consequently a
non-empty list is never filtered to an empty list. -/
theorem c2_release_group_filter (l : List ReleaseGroup) :
    ((∃ rg ∈ l, rg.secondarytypes = none) →
      filterOutCompilationsFromReleasegroups l =
        l.filter (fun rg => rg.secondarytypes.isNone)) ∧
    ((∀ rg ∈ l, rg.secondarytypes.isSome) →
      filterOutCompilationsFromReleasegroups l = l) ∧
    (l ≠ [] → filterOutCompilationsFromReleasegroups l ≠ []) := by
  refine ⟨?_, ?_, ?_⟩
  · rintro ⟨rg, hm, hn⟩
    have hmem : rg ∈ l.filter (fun rg => rg.secondarytypes.isNone) :=
      List.mem_filter.2 ⟨hm, by rw [hn]; rfl⟩
    have hne : l.filter (fun rg => rg.secondarytypes.isNone) ≠ [] :=
      List.ne_nil_of_mem hmem
    rw [filterOutCompilationsFromReleasegroups]
    exact if_pos (fun hc => hne (List.length_eq_zero.1 hc))
  · intro h
    have hnil : l.filter (fun rg => rg.secondarytypes.isNone) = [] := by
      rw [List.filter_eq_nil_iff]
      intro rg hm
      obtain ⟨v, hv⟩ := Option.isSome_iff_exists.1 (h rg hm)
      rw [hv]
      simp
    rw [filterOutCompilationsFromReleasegroups]
    exact if_neg (by rw [hnil]; simp)
  · intro h
    rw [filterOutCompilationsFromReleasegroups]
    by_cases hc : (l.filter (fun rg => rg.secondarytypes.isNone)).length ≠ 0
    · rw [if_pos hc]
      intro hcon
      exact hc (by rw [hcon]; rfl)
    · rw [if_neg hc]
      exact h

/-- Witness for C2 at concrete inputs: a mixed list keeps only the
release group without `secondarytypes`; an all-compilation list is kept
whole and stays non-empty. -/
theorem c2_witness :
    filterOutCompilationsFromReleasegroups
        ([⟨some "r1", none, none, none, some ["compilation"]⟩,
          ⟨some "r2", none, none, none, none⟩] : List ReleaseGroup) =
      List.filter (fun rg => rg.secondarytypes.isNone)
        [⟨some "r1", none, none, none, some ["compilation"]⟩,
         ⟨some "r2", none, none, none, none⟩] ∧
    filterOutCompilationsFromReleasegroups
        ([⟨some "r1", none, none, none, some ["compilation"]⟩] :
          List ReleaseGroup) =
      [⟨some "r1", none, none, none, some ["compilation"]⟩] ∧
    filterOutCompilationsFromReleasegroups
        ([⟨some "r1", none, none, none, some ["compilation"]⟩] :
          List ReleaseGroup) ≠ [] :=
  ⟨(c2_release_group_filter _).1 (by decide),
   (c2_release_group_filter _).2.1 (by decide),
   (c2_release_group_filter _).2.2 (by decide)⟩

/-- C3: for every merged recording, the Result Builder emits exactly one
TrackMetadata per release group in preserved order; its fields are
`title` = the recording's title, `artist` = the artist names joined by
"; " in order without deduplication, `album` = the release group's title
if present else its name if present else none, `albumartist` = the joined
names of the release group's own artists if present else none; the output
count per merged recording is its release-group count. -/
theorem c3_result_builder (registry : List String)
    (ms : List MergedRecording) :
    (getResultsForRecordings registry ms).2 =
      (ms.map (fun m => m.releasegroups.map (fun rg =>
        { artist := joinArtistNames m.artists
          title := m.title
          album := match rg.title with
            | some albumTitle => some albumTitle
            | none => rg.name
          albumartist := rg.artists.map joinArtistNames
          : TrackMetadata }))).flatten ∧
    (getResultsForRecordings registry ms).2.length =
      (ms.map (fun m => m.releasegroups.length)).sum := by
  have h := resultsFold_snd ms registry []
  constructor
  · rw [getResultsForRecordings, h, List.nil_append]
    rfl
  · rw [getResultsForRecordings, h, List.nil_append,
      List.length_flatten, List.map_map]
    congr 1
    apply List.map_congr_left
    intro m _
    simp [Function.comp_def]

/-- C4: the validator fails with the service error carrying the reported
status whenever `status` is not "ok", and with the fixed service error
when `results` is absent; in both cases the whole call returns only the
error, so no output list is produced and the registry is not touched. -/
theorem c4_response_validator (registry : List String)
    (data : LookupResponse) :
    (data.status ≠ "ok" →
      parseLookupResult registry data =
        .error (.webServiceError ("status: " ++ data.status))) ∧
    (data.status = "ok" → data.results = none →
      parseLookupResult registry data =
        .error (.webServiceError "results not included")) := by
  constructor
  · intro h
    rw [parseLookupResult, if_pos h]
  · intro h1 h2
    obtain ⟨st, res⟩ := data
    simp only at h1 h2
    subst h1
    subst h2
    rfl

/-- Witness for C4 at concrete inputs: a response with status "failed"
and one with status "ok" but no results. -/
theorem c4_witness :
    parseLookupResult ["k"] { status := "failed", results := none } =
      .error (.webServiceError ("status: " ++ "failed")) ∧
    parseLookupResult ["k"] { status := "ok", results := none } =
      .error (.webServiceError "results not included") :=
  ⟨(c4_response_validator ["k"] _).1 (by decide),
   (c4_response_validator ["k"] _).2 rfl rfl⟩

/-- C8: the result builder records each merged recording's
`title ++ "_" ++ artist` key into the submission registry exactly when it
is not already present, first occurrence only, once per merged recording
and independently of its release groups (also when there are none): the
final registry is the initial one extended by the first-occurrence
deduplication of the fresh keys. -/
theorem c8_submission_registry (registry : List String)
    (ms : List MergedRecording) :
    (getResultsForRecordings registry ms).1 =
      registry ++ dedupFirstAux registry
        (ms.map (fun m => m.title ++ "_" ++ joinArtistNames m.artists)) := by
  rw [getResultsForRecordings, resultsFold_fst]

/-- C5: a recording lacking `title` or lacking `artists` contributes
nothing: the merge of any sequence containing it equals the merge of the
sequence with it removed — it is skipped before keying, neither reported
nor failing the pipeline. -/
theorem c5_malformed_recording_skipped (xs ys : List Recording)
    (r : Recording) (h : r.title = none ∨ r.artists = none) :
    mergeMatchingRecordings (xs ++ r :: ys) =
      mergeMatchingRecordings (xs ++ ys) := by
  have hnp : ¬passing r := by
    rintro ⟨h1, h2⟩
    rcases h with h | h
    · rw [h] at h1; exact Bool.noConfusion h1
    · rw [h] at h2; exact Bool.noConfusion h2
  have hit : itemOf r = none := (itemOf_eq_none_iff r).2 (Or.inl hnp)
  by_cases hbad : ∃ r' ∈ xs ++ ys, passing r' ∧ r'.releasegroups = none
  · obtain ⟨r', hm, hp, hrg⟩ := hbad
    have hm2 : r' ∈ xs ++ r :: ys := by
      rcases List.mem_append.1 hm with h' | h'
      · exact List.mem_append_left _ h'
      · exact List.mem_append_right _ (List.mem_cons_of_mem _ h')
    rw [mergeMatchingRecordings, mergeMatchingRecordings,
      mergeFoldAux_eq_none _ ⟨r', hm2, hp, hrg⟩ _,
      mergeFoldAux_eq_none _ ⟨r', hm, hp, hrg⟩ _]
  · push_neg at hbad
    have hpre2 : ∀ r' ∈ xs ++ ys, passing r' → r'.releasegroups.isSome :=
      fun r' hm hp => Option.ne_none_iff_isSome.1 (hbad r' hm hp)
    have hpre1 : ∀ r' ∈ xs ++ r :: ys, passing r' →
        r'.releasegroups.isSome := by
      intro r' hm hp
      rcases List.mem_append.1 hm with h' | h'
      · exact hpre2 r' (List.mem_append_left _ h') hp
      · rcases List.mem_cons.1 h' with rfl | h'
        · exact absurd hp hnp
        · exact hpre2 r' (List.mem_append_right _ h') hp
    rw [mergeMatchingRecordings, mergeMatchingRecordings,
      mergeFoldAux_eq _ hpre1 _, mergeFoldAux_eq _ hpre2 _]
    have hitems : items (xs ++ r :: ys) = items (xs ++ ys) := by
      rw [items_append, items_append]
      congr 1
      rw [items, items, List.filterMap_cons_none hit]
    rw [hitems]
    rfl

/-- Witness for C5: a recording with no title (and one with no artists)
is dropped from a concrete merge without affecting the result. -/
theorem c5_witness :
    mergeMatchingRecordings
        [⟨none, some [⟨some "x", "A"⟩], some []⟩,
         ⟨some "T", some [⟨some "x", "A"⟩], some []⟩] =
      mergeMatchingRecordings [⟨some "T", some [⟨some "x", "A"⟩], some []⟩] ∧
    mergeMatchingRecordings
        [⟨some "T", some [⟨some "x", "A"⟩], some []⟩,
         ⟨some "U", none, some []⟩] =
      mergeMatchingRecordings [⟨some "T", some [⟨some "x", "A"⟩], some []⟩] :=
  ⟨c5_malformed_recording_skipped []
      [⟨some "T", some [⟨some "x", "A"⟩], some []⟩]
      ⟨none, some [⟨some "x", "A"⟩], some []⟩ (Or.inl rfl),
   c5_malformed_recording_skipped
      [⟨some "T", some [⟨some "x", "A"⟩], some []⟩] []
      ⟨some "U", none, some []⟩ (Or.inr rfl)⟩

/-- C9: the silent-discard rule does not cover `releasegroups`: a
recording that passes the completeness check but lacks `releasegroups`
makes the whole lookup fail with the key-lookup error; under the input
contract's precondition that every such recording carries
`releasegroups`, the merge is total and that error is unreachable. -/
theorem c9_releasegroups_access :
    (∀ rs : List Recording,
      (∀ r ∈ rs, passing r → r.releasegroups.isSome) →
      (mergeMatchingRecordings rs).isSome) ∧
    (∀ (registry : List String) (data : LookupResponse)
        (results : List ResultEntry),
      data.status = "ok" → data.results = some results →
      (∃ r ∈ allRecordingsOf results,
        passing r ∧ r.releasegroups = none) →
      parseLookupResult registry data =
        .error (.keyError "releasegroups")) := by
  constructor
  · intro rs h
    rw [mergeMatchingRecordings, mergeFoldAux_eq rs h ([], [])]
    rfl
  · intro registry data results h1 h2 h3
    obtain ⟨st, res⟩ := data
    simp only at h1 h2
    subst h1
    subst h2
    have hext : extractRecordings results = none := by
      rw [extractRecordings, mergeMatchingRecordings,
        mergeFoldAux_eq_none _ h3 _]
      rfl
    simp [parseLookupResult, hext]

/-- Witness for C9: a complete input makes the merge succeed; one
recording with title and artists but no `releasegroups` makes the whole
lookup fail with the key error. -/
theorem c9_witness :
    (mergeMatchingRecordings
      [⟨some "T", some [⟨some "x", "A"⟩], some []⟩]).isSome ∧
    parseLookupResult ["k"]
        ⟨"ok", some [⟨some [⟨some "T", some [⟨some "x", "A"⟩], none⟩]⟩]⟩ =
      .error (.keyError "releasegroups") :=
  ⟨c9_releasegroups_access.1 _ (by decide),
   c9_releasegroups_access.2 ["k"] _
      [⟨some [⟨some "T", some [⟨some "x", "A"⟩], none⟩]⟩] rfl rfl
      (by decide)⟩

/-- C10: the merge mutates its input exactly by inserting `id = ""` into
every artist record lacking an `id`, in every recording that passes the
completeness check; titles, release groups, artist names, artist order
and skipped recordings are untouched. -/
theorem c10_setdefault_mutation (rs rs' : List Recording) (g : Groups)
    (h : mergeFoldAux ([], []) rs = some (g, rs')) :
    rs' = rs.map mutateRecording ∧
    (∀ r : Recording, ¬passing r → mutateRecording r = r) ∧
    (∀ (r : Recording) (a : List Artist), r.artists = some a →
      r.title.isSome →
      mutateRecording r =
        ⟨r.title,
         some (a.map (fun ar => ⟨some (ar.id.getD ""), ar.name⟩)),
         r.releasegroups⟩) := by
  refine ⟨?_, ?_, ?_⟩
  · have hpre := mergeFoldAux_some_pre rs _ _ h
    rw [mergeFoldAux_eq rs hpre ([], [])] at h
    have h2 : ([] : List Recording) ++ rs.map mutateRecording = rs' :=
      congrArg Prod.snd (Option.some_inj.1 h)
    rw [List.nil_append] at h2
    exact h2.symm
  · intro r hnp
    rcases hrt : r.title with _ | t
    · rw [mutateRecording, hrt]
    · rcases hra : r.artists with _ | a
      · rw [mutateRecording, hrt, hra]
      · exact absurd ⟨by rw [hrt]; rfl, by rw [hra]; rfl⟩ hnp
  · intro r a ha hts
    obtain ⟨t, ht⟩ := Option.isSome_iff_exists.1 hts
    rw [mutateRecording, ht, ha]
    rfl

/-- Witness for C10: merging one recording whose single artist lacks an
id leaves the input list with that id set to the empty string. -/
theorem c10_witness :
    ([⟨some "T", some [⟨some "", "N"⟩], some []⟩] : List Recording) =
      List.map mutateRecording [⟨some "T", some [⟨none, "N"⟩], some []⟩] :=
  (c10_setdefault_mutation [⟨some "T", some [⟨none, "N"⟩], some []⟩]
    [⟨some "T", some [⟨some "", "N"⟩], some []⟩]
    [("T", [("", ([⟨some "", "N"⟩], []))])] rfl).1

/-- C1 (amended): for every flat recording sequence, when exactly two
recordings share the identity key `(t, k)` — identical title, identical
ordered artist-id sequence with missing ids read as `""` — the merge
output holds exactly one MergedRecording for that key, and its
release-group list is the Release Group Filter applied to the
deduplication (full structural equality, first occurrence kept) of the
concatenation of both recordings' release groups in encounter order. -/
theorem c1_merged_releasegroups (rs : List Recording)
    (out : List MergedRecording) (t k : String) (r1 r2 : Recording)
    (a1 : List Artist) (L1 L2 : List ReleaseGroup)
    (hmerge : mergeMatchingRecordings rs = some out)
    (hmatch : matchingRecs rs t k = [r1, r2])
    (ha1 : r1.artists = some a1)
    (hL1 : r1.releasegroups = some L1)
    (hL2 : r2.releasegroups = some L2) :
    out.filter (fun m => m.title == t && artistKey m.artists == k) =
      [⟨t, setdefaultIds a1,
        filterOutCompilationsFromReleasegroups
          (removeDuplicateDicts (L1 ++ L2))⟩] := by
  have hpre := merge_some_no_missing_releasegroups rs out hmerge
  have hout := merge_some_eq rs out hmerge
  have hinv := items_key_inv rs
  have hif := items_filter_key rs t k hpre
  have hr1mem : r1 ∈ matchingRecs rs t k := by
    rw [hmatch]; exact List.mem_cons_self _ _
  have hr1key : recKey r1 = some (t, k) := by
    simpa using List.of_mem_filter hr1mem
  obtain ⟨hr1t, a1', ha1', hk1⟩ := recKey_some_spec r1 t k hr1key
  have ha1eq : a1' = a1 := Option.some_inj.1 (ha1'.symm.trans ha1)
  have hitem1 : itemOf r1 = some ⟨t, artistKey a1, setdefaultIds a1, L1⟩ := by
    rw [itemOf, hr1t, ha1, hL1]
  rw [show artistKey a1 = k from ha1eq ▸ hk1] at hitem1
  have hr2mem : r2 ∈ matchingRecs rs t k := by
    rw [hmatch]; exact List.mem_cons_of_mem _ (List.mem_cons_self _ _)
  have hr2key : recKey r2 = some (t, k) := by
    simpa using List.of_mem_filter hr2mem
  obtain ⟨hr2t, a2, ha2, hk2⟩ := recKey_some_spec r2 t k hr2key
  have hitem2 : itemOf r2 = some ⟨t, artistKey a2, setdefaultIds a2, L2⟩ := by
    rw [itemOf, hr2t, ha2, hL2]
  rw [hk2] at hitem2
  have hfilter : (items rs).filter (fun i => i.t == t && i.k == k) =
      [⟨t, k, setdefaultIds a1, L1⟩, ⟨t, k, setdefaultIds a2, L2⟩] := by
    rw [hif, hmatch, List.filterMap_cons_some hitem1,
      List.filterMap_cons_some hitem2]
    rfl
  have hi1mem : (⟨t, k, setdefaultIds a1, L1⟩ : Item) ∈ items rs := by
    have hmem : (⟨t, k, setdefaultIds a1, L1⟩ : Item) ∈
        (items rs).filter (fun i => i.t == t && i.k == k) := by
      rw [hfilter]; exact List.mem_cons_self _ _
    exact List.mem_of_mem_filter hmem
  have ht : t ∈ titlesOf (items rs) :=
    (titlesOf_mem_iff t (items rs)).2 ⟨_, hi1mem, rfl⟩
  have hk : k ∈ keysOf t (items rs) :=
    (keysOf_mem_iff t k (items rs)).2 ⟨_, hi1mem, rfl, rfl⟩
  have hcollect : collectRgs t k (items rs) = L1 ++ L2 := by
    rw [collectRgs, hfilter]
    simp
  have hfa : firstArts t k (items rs) = setdefaultIds a1 := by
    rw [firstArts, find?_eq_head?_filter, hfilter]
    rfl
  rw [hout, buildMerged_filter_bucket (items rs) hinv t k,
    if_pos ⟨ht, hk⟩, mergedAt, hfa, hcollect]

/-- Counterexample to C1 as frozen: with two recordings of the same key,
one carrying a compilation-marked release group and the other a plain
one, the merged recording's release-group list is not the deduplicated
concatenation — the filter then strips the compilation entry. -/
theorem c1_counterexample :
    mergeMatchingRecordings
        [⟨some "T", some [⟨some "x", "A"⟩],
          some [⟨some "r1", some "Comp", none, none, some ["compilation"]⟩]⟩,
         ⟨some "T", some [⟨some "x", "A"⟩],
          some [⟨some "r2", some "Album", none, none, none⟩]⟩] =
      some [⟨"T", [⟨some "x", "A"⟩],
        [⟨some "r2", some "Album", none, none, none⟩]⟩] ∧
    matchingRecs
        [⟨some "T", some [⟨some "x", "A"⟩],
          some [⟨some "r1", some "Comp", none, none, some ["compilation"]⟩]⟩,
         ⟨some "T", some [⟨some "x", "A"⟩],
          some [⟨some "r2", some "Album", none, none, none⟩]⟩] "T" "x" =
      [⟨some "T", some [⟨some "x", "A"⟩],
        some [⟨some "r1", some "Comp", none, none, some ["compilation"]⟩]⟩,
       ⟨some "T", some [⟨some "x", "A"⟩],
        some [⟨some "r2", some "Album", none, none, none⟩]⟩] ∧
    ([⟨some "r2", some "Album", none, none, none⟩] : List ReleaseGroup) ≠
      removeDuplicateDicts
        ([⟨some "r1", some "Comp", none, none, some ["compilation"]⟩] ++
         [⟨some "r2", some "Album", none, none, none⟩]) :=
  ⟨by decide, by decide, by decide⟩

/-- Witness for C1 (amended) at the concrete two-recording input of the
counterexample: the single bucket's release groups are the filtered
deduplicated concatenation. -/
theorem c1_witness :
    List.filter (fun m => m.title == "T" && artistKey m.artists == "x")
        ([⟨"T", [⟨some "x", "A"⟩],
          [⟨some "r2", some "Album", none, none, none⟩]⟩] :
            List MergedRecording) =
      [⟨"T", setdefaultIds [⟨some "x", "A"⟩],
        filterOutCompilationsFromReleasegroups
          (removeDuplicateDicts
            ([⟨some "r1", some "Comp", none, none, some ["compilation"]⟩] ++
             [⟨some "r2", some "Album", none, none, none⟩]))⟩] :=
  c1_merged_releasegroups
    [⟨some "T", some [⟨some "x", "A"⟩],
      some [⟨some "r1", some "Comp", none, none, some ["compilation"]⟩]⟩,
     ⟨some "T", some [⟨some "x", "A"⟩],
      some [⟨some "r2", some "Album", none, none, none⟩]⟩]
    [⟨"T", [⟨some "x", "A"⟩],
      [⟨some "r2", some "Album", none, none, none⟩]⟩]
    "T" "x"
    ⟨some "T", some [⟨some "x", "A"⟩],
      some [⟨some "r1", some "Comp", none, none, some ["compilation"]⟩]⟩
    ⟨some "T", some [⟨some "x", "A"⟩],
      some [⟨some "r2", some "Album", none, none, none⟩]⟩
    [⟨some "x", "A"⟩]
    [⟨some "r1", some "Comp", none, none, some ["compilation"]⟩]
    [⟨some "r2", some "Album", none, none, none⟩]
    (by decide) (by decide) rfl rfl rfl

/-- C6: the artists list of every bucket of the merge output is exactly
the (id-defaulted) artist list of the first recording seen for that
`(title, artist-key)` pair; later matching recordings contribute only
their key. -/
theorem c6_first_seen_artists (rs : List Recording)
    (out : List MergedRecording) (t k : String) (r1 : Recording)
    (rest : List Recording) (a1 : List Artist)
    (hmerge : mergeMatchingRecordings rs = some out)
    (hmatch : matchingRecs rs t k = r1 :: rest)
    (ha1 : r1.artists = some a1) :
    ∀ m ∈ out, m.title = t → artistKey m.artists = k →
      m.artists = setdefaultIds a1 := by
  intro m hm hmt hmk
  have hpre := merge_some_no_missing_releasegroups rs out hmerge
  have hout := merge_some_eq rs out hmerge
  have hinv := items_key_inv rs
  have hmf : m ∈ out.filter
      (fun m' => m'.title == t && artistKey m'.artists == k) :=
    List.mem_filter.2 ⟨hm, by simp [hmt, hmk]⟩
  rw [hout, buildMerged_filter_bucket (items rs) hinv t k] at hmf
  by_cases hcond : t ∈ titlesOf (items rs) ∧ k ∈ keysOf t (items rs)
  · rw [if_pos hcond] at hmf
    have hmeq : m = mergedAt t k (items rs) := List.mem_singleton.1 hmf
    have hif := items_filter_key rs t k hpre
    have hr1mem : r1 ∈ matchingRecs rs t k := by
      rw [hmatch]; exact List.mem_cons_self _ _
    have hr1key : recKey r1 = some (t, k) := by
      simpa using List.of_mem_filter hr1mem
    obtain ⟨hr1t, a1', ha1', hk1⟩ := recKey_some_spec r1 t k hr1key
    have ha1eq : a1' = a1 := Option.some_inj.1 (ha1'.symm.trans ha1)
    have hr1rs : r1 ∈ rs := List.mem_of_mem_filter hr1mem
    have hr1pass : passing r1 := ⟨by rw [hr1t]; rfl, by rw [ha1]; rfl⟩
    obtain ⟨L1, hL1⟩ := Option.isSome_iff_exists.1 (hpre r1 hr1rs hr1pass)
    have hitem1 : itemOf r1 =
        some ⟨t, artistKey a1, setdefaultIds a1, L1⟩ := by
      rw [itemOf, hr1t, ha1, hL1]
    rw [show artistKey a1 = k from ha1eq ▸ hk1] at hitem1
    have hfa : firstArts t k (items rs) = setdefaultIds a1 := by
      rw [firstArts, find?_eq_head?_filter, hif, hmatch,
        List.filterMap_cons_some hitem1]
      rfl
    rw [hmeq]
    show firstArts t k (items rs) = setdefaultIds a1
    exact hfa
  · rw [if_neg hcond] at hmf
    exact absurd hmf (List.not_mem_nil m)

/-- Witness for C6: two recordings with the same key but different artist
names; the bucket keeps the first one's artist list. -/
theorem c6_witness :
    (⟨"T", [⟨some "x", "First"⟩],
        [⟨some "r2", some "Album", none, none, none⟩]⟩ :
      MergedRecording).artists = setdefaultIds [⟨some "x", "First"⟩] :=
  c6_first_seen_artists
    [⟨some "T", some [⟨some "x", "First"⟩],
      some [⟨some "r2", some "Album", none, none, none⟩]⟩,
     ⟨some "T", some [⟨some "x", "Second"⟩], some []⟩]
    [⟨"T", [⟨some "x", "First"⟩],
      [⟨some "r2", some "Album", none, none, none⟩]⟩]
    "T" "x"
    ⟨some "T", some [⟨some "x", "First"⟩],
      some [⟨some "r2", some "Album", none, none, none⟩]⟩
    [⟨some "T", some [⟨some "x", "Second"⟩], some []⟩]
    [⟨some "x", "First"⟩]
    (by decide) (by decide) rfl
    ⟨"T", [⟨some "x", "First"⟩],
      [⟨some "r2", some "Album", none, none, none⟩]⟩
    (List.mem_cons_self _ _) rfl rfl

/-- C7: the merge output is ordered title-major then artist-key-minor,
each level in first-insertion order of the corresponding mapping level:
the key sequence of the output equals the flattening of the
first-occurrence title order with, per title, the first-occurrence key
order. -/
theorem c7_output_order (rs : List Recording) (out : List MergedRecording)
    (hmerge : mergeMatchingRecordings rs = some out) :
    out.map (fun m => (m.title, artistKey m.artists)) =
      ((titlesOf (items rs)).map (fun t =>
        (keysOf t (items rs)).map (fun k => (t, k)))).flatten := by
  rw [merge_some_eq rs out hmerge,
    buildMerged_map_key (items rs) (items_key_inv rs)]

/-- Witness for C7: with titles interleaved as A, B, A the output key
order is title-major — and differs from the flat encounter order. -/
theorem c7_witness :
    mergeMatchingRecordings
        [⟨some "A", some [⟨some "1", "X"⟩], some []⟩,
         ⟨some "B", some [⟨some "2", "Y"⟩], some []⟩,
         ⟨some "A", some [⟨some "3", "Z"⟩], some []⟩] =
      some [⟨"A", [⟨some "1", "X"⟩], []⟩,
            ⟨"A", [⟨some "3", "Z"⟩], []⟩,
            ⟨"B", [⟨some "2", "Y"⟩], []⟩] ∧
    List.map (fun m => (m.title, artistKey m.artists))
        [(⟨"A", [⟨some "1", "X"⟩], []⟩ : MergedRecording),
         ⟨"A", [⟨some "3", "Z"⟩], []⟩,
         ⟨"B", [⟨some "2", "Y"⟩], []⟩] =
      ((titlesOf (items
        [⟨some "A", some [⟨some "1", "X"⟩], some []⟩,
         ⟨some "B", some [⟨some "2", "Y"⟩], some []⟩,
         ⟨some "A", some [⟨some "3", "Z"⟩], some []⟩])).map (fun t =>
        (keysOf t (items
          [⟨some "A", some [⟨some "1", "X"⟩], some []⟩,
           ⟨some "B", some [⟨some "2", "Y"⟩], some []⟩,
           ⟨some "A", some [⟨some "3", "Z"⟩], some []⟩])).map
            (fun k => (t, k)))).flatten ∧
    List.map (fun m => (m.title, artistKey m.artists))
        [(⟨"A", [⟨some "1", "X"⟩], []⟩ : MergedRecording),
         ⟨"A", [⟨some "3", "Z"⟩], []⟩,
         ⟨"B", [⟨some "2", "Y"⟩], []⟩] ≠
      (items [⟨some "A", some [⟨some "1", "X"⟩], some []⟩,
         ⟨some "B", some [⟨some "2", "Y"⟩], some []⟩,
         ⟨some "A", some [⟨some "3", "Z"⟩], some []⟩]).map
        (fun i => (i.t, i.k)) :=
  ⟨by decide,
   c7_output_order
     [⟨some "A", some [⟨some "1", "X"⟩], some []⟩,
      ⟨some "B", some [⟨some "2", "Y"⟩], some []⟩,
      ⟨some "A", some [⟨some "3", "Z"⟩], some []⟩]
     [⟨"A", [⟨some "1", "X"⟩], []⟩,
      ⟨"A", [⟨some "3", "Z"⟩], []⟩,
      ⟨"B", [⟨some "2", "Y"⟩], []⟩]
     (by decide),
   by decide⟩

end AcoustID
